import Mathlib

/-!
Verification of the pypdf/PyPDF2 inline-image extractors and the PDF object
model claims, against `src/pypdf/generic/_image_inline.py`,
`src/PyPDF2/merger.py` and the behaviour documented in the repository spec.

Byte streams are modelled as a list of byte values (`Nat`) together with a
cursor, mirroring Python's `BytesIO`: `read n` returns up to `n` bytes and
advances; `seek` with a negative absolute target raises (Python's
`ValueError: negative seek value`); `read` with a negative size reads to the
end of the stream.  Loops of the source are given explicit fuel; the top
level functions supply fuel that is provably larger than the number of
iterations of any terminating run, so `none` marks genuine non-termination
of the Python code.
-/

/-- A byte stream: the underlying bytes and the current cursor position.
Mirrors Python's `BytesIO` objects used by the extractors. -/
structure StreamType where
  data : List Nat
  pos : Nat
deriving DecidableEq, Repr

/-- `stream.read(n)` for `n ≥ 0`: returns up to `n` bytes from the cursor and
advances the cursor by the number of bytes actually returned. -/
def StreamType.read (s : StreamType) (n : Nat) : List Nat × StreamType :=
  let bytes := (s.data.drop s.pos).take n
  (bytes, ⟨s.data, s.pos + bytes.length⟩)

/-- `stream.read(n)` for a possibly negative `n`: Python's `BytesIO.read`
reads to the end of the stream when the size is negative. -/
def StreamType.readI (s : StreamType) (n : Int) : List Nat × StreamType :=
  if n < 0 then
    let bytes := s.data.drop s.pos
    (bytes, ⟨s.data, s.pos + bytes.length⟩)
  else s.read n.toNat

/-- `stream.seek(off, 1)`: relative seek.  A negative resulting position
raises `ValueError("negative seek value")` in Python. -/
def StreamType.seek (s : StreamType) (off : Int) : Except String StreamType :=
  let target : Int := (s.pos : Int) + off
  if target < 0 then .error "negative seek value" else .ok ⟨s.data, target.toNat⟩

/-- `stream.seek(p, 0)`: absolute seek to a saved (non-negative) position. -/
def StreamType.seekAbs (s : StreamType) (p : Nat) : StreamType := ⟨s.data, p⟩

/-- A fresh stream positioned at the start of its data. -/
def StreamType.mk0 (l : List Nat) : StreamType := ⟨l, 0⟩

/-- Python slicing `xs[:l]` where `l` may be negative (counting from the
end, clamped at zero). -/
def pyTake (xs : List Nat) (l : Int) : List Nat :=
  if 0 ≤ l then xs.take l.toNat else xs.take ((xs.length : Int) + l).toNat

/-- Auxiliary scan for `bytes.find`. -/
def findSubAux (pat : List Nat) : List Nat → Nat → Option Nat
  | [], i => if pat.isPrefixOf [] then some i else none
  | h :: t, i => if pat.isPrefixOf (h :: t) then some i else findSubAux pat t (i + 1)

/-- Python `hay.find(pat)`: index of the first occurrence, `none` for -1. -/
def findSub (hay pat : List Nat) : Option Nat := findSubAux pat hay 0

/-- Python `sub in big` on bytes objects: substring containment (an empty
`sub` is contained in everything). -/
def pyIn (sub big : List Nat) : Bool := (findSub big sub).isSome

/-- Whitespace bytes.  Modelled from the spec: `WHITESPACES` lives in
pypdf's `_utils.py`, which is not under src/; §4.3 of the spec gives the
set as space, tab, CR, LF, form-feed and the null byte. -/
def wsb (b : Nat) : Bool :=
  b == 0x20 || b == 0x09 || b == 0x0D || b == 0x0A || b == 0x0C || b == 0x00

/-- Python `c in WHITESPACES` where `WHITESPACES` is a tuple of single-byte
bytes objects: true exactly for a one-byte value whose byte is whitespace
(in particular `b""` is not a member). -/
def wsB (c : List Nat) : Bool :=
  match c with
  | [b] => wsb b
  | _ => false

/-- Fuelled loop of `read_non_whitespace`: read single bytes until a
non-whitespace byte (or end of stream) is found. -/
def read_non_whitespaceF : Nat → StreamType → List Nat × StreamType
  | 0, s => ([], s)
  | f + 1, s =>
    let r := s.read 1
    if wsB r.1 then read_non_whitespaceF f r.2 else r

/-- Modelled from the spec: `read_non_whitespace` from pypdf's `_utils.py`
(not under src/), the §4.3 "read past whitespace" primitive returning the
first non-whitespace byte found (empty at end of stream).  The supplied
fuel strictly exceeds the number of remaining bytes, so it never runs out. -/
def read_non_whitespace (s : StreamType) : List Nat × StreamType :=
  read_non_whitespaceF (s.data.length + 1 - s.pos) s

/-- The terminator validation shared verbatim by the four filter-specific
extractors: skip whitespace, read the next three bytes, rewind by three, and
require the bytes to be `EI` followed by end-of-stream or whitespace. -/
def ei_validation (data : List Nat) (s : StreamType) :
    Except String (List Nat × StreamType) :=
  let r1 := read_non_whitespace s
  let r2 := r1.2.read 2
  let ei := r1.1 ++ r2.1
  match r2.2.seek (-3) with
  | .error e => .error e
  | .ok s3 =>
      if ei.take 2 = [0x45, 0x49] ∧ (ei.drop 2 = [] ∨ wsB ((ei.drop 2).take 1) = true) then
        .ok (data, s3)
      else .error "EI stream not found"

/-- Lift a scan result into the shared `EI` validation epilogue. -/
def runEi (r : Option (Except String (List Nat × StreamType))) :
    Option (Except String (List Nat × StreamType)) :=
  match r with
  | some (.ok (d, s)) => some (ei_validation d s)
  | r => r

/-- The backup-terminator whitespace trim loop of `extract_inline_AHex`:
while the byte read is whitespace, seek back two, read one, decrement `loc`. -/
def wsBackF : Nat → Int → StreamType → List Nat → Except String (Int × StreamType)
  | 0, loc, s, _ => .ok (loc, s)
  | f + 1, loc, s, c =>
    if wsB c then
      match s.seek (-2) with
      | .error e => .error e
      | .ok s1 =>
          let r := s1.read 1
          wsBackF f (loc - 1) r.2 r.1
    else .ok (loc, s)

/-- The chunked scan loop of `extract_inline_AHex`: read past whitespace plus
a buffer, look for `>`, fall back to a literal `EI` (trimming the whitespace
just before it), otherwise keep the chunk minus two bytes and rewind by two. -/
def ahexScan : Nat → StreamType → List Nat →
    Option (Except String (List Nat × StreamType))
  | 0, _, _ => none
  | f + 1, s, data =>
    let r1 := read_non_whitespace s
    let r2 := r1.2.read 8192
    let buf := r1.1 ++ r2.1
    let s2 := r2.2
    if buf = [] then some (.error "Unexpected end of stream")
    else
      match findSub buf [0x3E] with
      | some loc =>
          match s2.seek (-(buf.length : Int) + loc + 1) with
          | .error e => some (.error e)
          | .ok s3 => some (.ok (data ++ pyTake buf ((loc : Int) + 1), s3))
      | none =>
        match findSub buf [0x45, 0x49] with
        | some loc =>
            match s2.seek (-(buf.length : Int) + loc - 1) with
            | .error e => some (.error e)
            | .ok s3 =>
                let rc := s3.read 1
                match wsBackF (rc.2.pos + 2) loc rc.2 rc.1 with
                | .error e => some (.error e)
                | .ok (loc1, s5) => some (.ok (data ++ pyTake buf loc1, s5))
        | none =>
          if buf.length = 2 then some (.error "Unexpected end of stream")
          else
            match s2.seek (-2) with
            | .error e => some (.error e)
            | .ok s3 => ahexScan f s3 (data ++ pyTake buf (-2))

/-- `extract_inline_AHex`: hex-encoded inline image data, terminated by `>`
(or a backup literal `EI`), followed by the shared `EI` validation. -/
def extract_inline_AHex (s : StreamType) :
    Option (Except String (List Nat × StreamType)) :=
  runEi (ahexScan (s.data.length + 8) s [])

/-- The chunked scan loop of `extract_inline_A85`: look for the two-byte
terminator `~>`; a chunk of exactly two bytes without it is a premature end. -/
def a85Scan : Nat → StreamType → List Nat →
    Option (Except String (List Nat × StreamType))
  | 0, _, _ => none
  | f + 1, s, data =>
    let r1 := read_non_whitespace s
    let r2 := r1.2.read 8192
    let buf := r1.1 ++ r2.1
    let s2 := r2.2
    if buf = [] then some (.error "Unexpected end of stream")
    else
      match findSub buf [0x7E, 0x3E] with
      | some loc =>
          match s2.seek (-(buf.length : Int) + loc + 2) with
          | .error e => some (.error e)
          | .ok s3 => some (.ok (data ++ pyTake buf ((loc : Int) + 2), s3))
      | none =>
        if buf.length = 2 then some (.error "Unexpected end of stream")
        else
          match s2.seek (-2) with
          | .error e => some (.error e)
          | .ok s3 => a85Scan f s3 (data ++ pyTake buf (-2))

/-- `extract_inline_A85`: ASCII85 inline image data terminated by `~>`,
followed by the shared `EI` validation. -/
def extract_inline_A85 (s : StreamType) :
    Option (Except String (List Nat × StreamType)) :=
  runEi (a85Scan (s.data.length + 8) s [])

/-- The chunked scan loop of `extract_inline_RL`: look for the run-length
end-of-data byte `0x80`, keeping every chunk whole. -/
def rlScan : Nat → StreamType → List Nat →
    Option (Except String (List Nat × StreamType))
  | 0, _, _ => none
  | f + 1, s, data =>
    let r := s.read 8192
    let buf := r.1
    let s1 := r.2
    if buf = [] then some (.error "Unexpected end of stream")
    else
      match findSub buf [0x80] with
      | some loc =>
          match s1.seek (-(buf.length : Int) + loc + 1) with
          | .error e => some (.error e)
          | .ok s2 => some (.ok (data ++ pyTake buf ((loc : Int) + 1), s2))
      | none => rlScan f s1 (data ++ buf)

/-- `extract_inline_RL`: run-length encoded inline image data terminated by
`0x80`, followed by the shared `EI` validation. -/
def extract_inline_RL (s : StreamType) :
    Option (Except String (List Nat × StreamType)) :=
  runEi (rlScan (s.data.length + 8) s [])

/-- The marker codes of the `elif c in (b"\xc0...\xfe")` branch of
`extract_inline_DCT`: markers whose segment carries a 2-byte big-endian
length whose payload is copied verbatim. -/
def dctClassBytes : List Nat :=
  [0xC0, 0xC1, 0xC2, 0xC3, 0xC4, 0xC5, 0xC6, 0xC7, 0xC9, 0xCA, 0xCB, 0xCC,
   0xCD, 0xCE, 0xCF, 0xDA, 0xDB, 0xDC, 0xDD, 0xDE, 0xDF, 0xE0, 0xE1, 0xE2,
   0xE3, 0xE4, 0xE5, 0xE6, 0xE7, 0xE8, 0xE9, 0xEA, 0xEB, 0xEC, 0xED, 0xEE,
   0xEF, 0xFE]

/-- The byte-by-byte marker scan loop of `extract_inline_DCT`.  Note the
faithful oddities: membership of the empty read in the marker-class bytes is
true (Python substring containment), a short length read raises `IndexError`
when indexed, and there is no end-of-stream check at all. -/
def dctScan : Nat → StreamType → List Nat → Bool →
    Option (Except String (List Nat × StreamType))
  | 0, _, _, _ => none
  | f + 1, s, data, notfirst =>
    let rc := s.read 1
    let c := rc.1
    let s1 := rc.2
    let data1 := if notfirst = true ∨ c = [0xFF] then data ++ c else data
    if c ≠ [0xFF] then dctScan f s1 data1 notfirst
    else
      let rc2 := s1.read 1
      let c2 := rc2.1
      let s2 := rc2.2
      let data2 := data1 ++ c2
      if c2 = [0xFF] then
        match s2.seek (-1) with
        | .error e => some (.error e)
        | .ok s3 => dctScan f s3 data2 true
      else if c2 = [0x00] then dctScan f s2 data2 true
      else if c2 = [0xD9] then some (.ok (data2, s2))
      else if pyIn c2 dctClassBytes = true then
        let rc3 := s2.read 2
        let data3 := data2 ++ rc3.1
        match rc3.1 with
        | [hi, lo] =>
            let sz : Int := ((hi * 256 + lo : Nat) : Int)
            let rp := rc3.2.readI (sz - 2)
            dctScan f rp.2 (data3 ++ rp.1) true
        | _ => some (.error "IndexError")
      else dctScan f s2 data2 true

/-- `extract_inline_DCT`: JPEG inline image data scanned by marker segments
up to the end-of-image marker `FF D9`, followed by the shared `EI`
validation. -/
def extract_inline_DCT (s : StreamType) :
    Option (Except String (List Nat × StreamType)) :=
  runEi (dctScan (s.data.length + 8) s [] false)

/-- The scan loop of `extract_inline_default` (legacy extractor): look for a
literal `E`, speculatively check for `I`, a whitespace byte, and then either
a preceding whitespace byte or a following `Q`/`E` token; rewind to just
after the `E` on mismatch.  On success the data is truncated to exclude the
`E`.  Unlike the other four, the final stream consumed past the terminator. -/
def defaultScan : Nat → StreamType → List Nat →
    Option (Except String (List Nat × StreamType))
  | 0, _, _ => none
  | f + 1, s, data =>
    let r := s.read 8192
    let buf := r.1
    let s1 := r.2
    if buf = [] then some (.error "Unexpected end of stream")
    else
      match findSub buf [0x45] with
      | none => defaultScan f s1 (data ++ buf)
      | some loc =>
          let data1 := data ++ pyTake buf ((loc : Int) + 1)
          let dataposE := data1.length - 1
          match s1.seek ((loc : Int) + 1 - buf.length) with
          | .error e => some (.error e)
          | .ok s2 =>
              let saved := s2.pos
              let rt2 := s2.read 1
              if rt2.1 ≠ [0x49] then defaultScan f (rt2.2.seekAbs saved) data1
              else
                let rt3 := rt2.2.read 1
                if wsB rt3.1 = false then defaultScan f (rt3.2.seekAbs saved) data1
                else
                  let rt3f := read_non_whitespace rt3.2
                  let pre := if loc = 0 then ([] : List Nat)
                             else (buf.drop (loc - 1)).take 1
                  if wsB pre = false ∧ ¬(rt3f.1 = [0x51] ∨ rt3f.1 = [0x45]) then
                    defaultScan f (rt3f.2.seekAbs saved) data1
                  else some (.ok (data1.take dataposE, rt3f.2))

/-- `extract_inline_default`: the legacy filter-agnostic extractor.  The
returned pair also exposes the final cursor (Python returns only the bytes). -/
def extract_inline_default (s : StreamType) :
    Option (Except String (List Nat × StreamType)) :=
  defaultScan (s.data.length + 8) s []

/-- Project an extraction result onto its data component. -/
def dataPart (r : Option (Except String (List Nat × StreamType))) :
    Option (Except String (List Nat)) :=
  r.map (Except.map Prod.fst)

/-! ### Characterisation of the whitespace-skipping read -/

theorem read_non_whitespaceF_spec :
    ∀ (f : Nat) (s : StreamType), s.data.length - s.pos < f →
    read_non_whitespaceF f s =
      (((s.data.drop s.pos).dropWhile wsb).take 1,
       ⟨s.data, s.pos + ((s.data.drop s.pos).takeWhile wsb).length +
          (((s.data.drop s.pos).dropWhile wsb).take 1).length⟩) := by
  intro f
  induction f with
  | zero => intro s h; omega
  | succ f ih =>
    intro s h
    cases hre : s.data.drop s.pos with
    | nil =>
        simp [read_non_whitespaceF, StreamType.read, hre, wsB]
    | cons b t =>
        have ht : s.data.drop (s.pos + 1) = t := by
          rw [← List.drop_drop, hre]; rfl
        by_cases hb : wsb b = true
        · have hpos : s.pos < s.data.length := by
            by_contra hh
            push_neg at hh
            rw [List.drop_eq_nil_of_le hh] at hre
            cases hre
          have ih' := ih ⟨s.data, s.pos + 1⟩ (by simp; omega)
          simp only [ht] at ih'
          simp [read_non_whitespaceF, StreamType.read, hre, wsB, hb, ih',
            List.dropWhile_cons_of_pos hb, List.takeWhile_cons_of_pos hb]
          omega
        · simp [read_non_whitespaceF, StreamType.read, hre, wsB, hb,
            List.dropWhile_cons_of_neg hb, List.takeWhile_cons_of_neg hb]

theorem read_non_whitespace_spec (s : StreamType) :
    read_non_whitespace s =
      (((s.data.drop s.pos).dropWhile wsb).take 1,
       ⟨s.data, s.pos + ((s.data.drop s.pos).takeWhile wsb).length +
          (((s.data.drop s.pos).dropWhile wsb).take 1).length⟩) := by
  by_cases hp : s.pos ≤ s.data.length
  · exact read_non_whitespaceF_spec _ s (by omega)
  · push_neg at hp
    have hre : s.data.drop s.pos = [] := List.drop_eq_nil_of_le (by omega)
    have hf : s.data.length + 1 - s.pos = 0 := by omega
    simp [read_non_whitespace, hf, read_non_whitespaceF, hre]

/-! ### The shared `EI` validation postcondition -/

/-- The bytes of `t` at position `p` are the literal `EI` followed by
end-of-stream or a whitespace byte. -/
def eiAt (t : StreamType) (p : Nat) : Prop :=
  (t.data.drop p).take 2 = [0x45, 0x49] ∧
    (t.data.drop (p + 2) = [] ∨ wsb ((t.data.drop (p + 2)).headD 0) = true)

/-- Final-cursor postcondition of `ei_validation`: the cursor rests on the
`EI` token, except when the stream ends immediately after `EI`, in which
case the rewind by three overshoots by one byte. -/
def eiPost (t : StreamType) : Prop :=
  eiAt t t.pos ∨ (eiAt t (t.pos + 1) ∧ t.data.length = t.pos + 3)

theorem drop_takeWhile_length (p : Nat → Bool) (l : List Nat) :
    l.drop (l.takeWhile p).length = l.dropWhile p := by
  induction l with
  | nil => rfl
  | cons a t ih =>
      by_cases hp : p a = true
      · simpa [List.takeWhile_cons_of_pos hp, List.dropWhile_cons_of_pos hp] using ih
      · simp [List.takeWhile_cons_of_neg hp, List.dropWhile_cons_of_neg hp]

theorem ei_validation_ok {d0 d : List Nat} {s t : StreamType}
    (h : ei_validation d0 s = .ok (d, t)) :
    d = d0 ∧ t.data = s.data ∧ eiPost t := by
  rw [ei_validation, read_non_whitespace_spec] at h
  set k := ((s.data.drop s.pos).takeWhile wsb).length with hk
  have hdropk : s.data.drop (s.pos + k) = (s.data.drop s.pos).dropWhile wsb := by
    rw [hk, ← List.drop_drop, drop_takeWhile_length]
  cases hdw : (s.data.drop s.pos).dropWhile wsb with
  | nil =>
      rw [hdw] at h hdropk
      simp only [List.take_nil, List.length_nil, Nat.add_zero, StreamType.read,
        hdropk, List.append_nil, List.nil_append, StreamType.seek] at h
      split at h <;> simp_all
  | cons b dw' =>
      have hd1 : s.data.drop (s.pos + k + 1) = dw' := by
        rw [show s.pos + k + 1 = (s.pos + k) + 1 from rfl, ← List.drop_drop,
          hdropk, hdw]
        rfl
      rw [hdw] at h hdropk
      simp only [List.take_succ_cons, List.take_zero, List.length_cons,
        List.length_nil, Nat.zero_add, StreamType.read, hd1, StreamType.seek,
        List.cons_append, List.nil_append] at h
      cases hdw' : dw' with
      | nil =>
          rw [hdw'] at h hd1
          simp only [List.take_nil, List.length_nil, Nat.add_zero,
            List.append_nil] at h
          split at h <;> simp_all
      | cons x r2 =>
          rw [hdw'] at h hd1 hdropk
          cases hr2 : r2 with
          | nil =>
              rw [hr2] at h hd1 hdropk
              simp only [List.take_succ_cons, List.take_nil, List.take_zero,
                List.length_cons, List.length_nil, Nat.zero_add,
                List.cons_append, List.nil_append] at h
              split at h
              · simp_all
              · rename_i s3 hcond
                split at hcond
                · simp_all
                · rename_i hc
                  injection hcond with hcond
                  subst hcond
                  split at h
                  · rename_i hcond2
                    obtain ⟨⟨hbE, hxI⟩, -⟩ :
                        (b = 0x45 ∧ [x].take 1 = [0x49]) ∧
                          ([x].tail = [] ∨ wsB ([x].tail.take 1) = true) := by
                      simpa using hcond2
                    have hxI : x = 0x49 := by simpa using hxI
                    injection h with h2
                    injection h2 with hdd htt
                    subst hdd
                    subst htt
                    refine ⟨rfl, rfl, ?_⟩
                    have hle : s.pos + k + 1 ≤ s.data.length := by
                      by_contra hh
                      push_neg at hh
                      rw [List.drop_eq_nil_of_le (by omega)] at hd1
                      cases hd1
                    have hlen : s.data.length = s.pos + k + 2 := by
                      have h2 : (s.data.drop (s.pos + k + 1)).length = 1 := by
                        rw [hd1]
                        rfl
                      rw [List.length_drop] at h2
                      omega
                    have hge : ¬((s.pos : Int) + (k : Int) + 1 + 1 + -3 < 0) := by
                      simpa using hc
                    right
                    refine ⟨⟨?_, ?_⟩, ?_⟩
                    · have hp1 : (((s.pos + k + 1 + 1 : Nat) : Int) + -3).toNat + 1 =
                          s.pos + k := by omega
                      simp only [hp1]
                      rw [hdropk, hbE, hxI]
                      rfl
                    · left
                      have hp2 : (((s.pos + k + 1 + 1 : Nat) : Int) + -3).toNat + 1 + 2 =
                          (s.pos + k + 1) + 1 := by omega
                      rw [hp2, ← List.drop_drop, hd1]
                      rfl
                    · dsimp only
                      omega
                  · simp_all
          | cons y r3 =>
              rw [hr2] at h hd1 hdropk
              simp only [List.take_succ_cons, List.take_zero, List.length_cons,
                List.length_nil, Nat.zero_add, Nat.reduceAdd, List.cons_append,
                List.nil_append] at h
              split at h
              · simp_all
              · rename_i s3 hcond
                split at hcond
                · simp_all
                · rename_i hc
                  injection hcond with hcond
                  subst hcond
                  split at h
                  · rename_i hcond2
                    obtain ⟨⟨hbE, hxI⟩, hy⟩ :
                        (b = 0x45 ∧ [x, y].take 1 = [0x49]) ∧
                          ([x, y].tail = [] ∨ wsB ([x, y].tail.take 1) = true) := by
                      simpa using hcond2
                    have hxI : x = 0x49 := by simpa using hxI
                    have hyw : wsb y = true := by
                      rcases hy with hy | hy
                      · cases hy
                      · simpa [wsB] using hy
                    injection h with h2
                    injection h2 with hdd htt
                    subst hdd
                    subst htt
                    refine ⟨rfl, rfl, ?_⟩
                    left
                    have hp1 : (((s.pos + k + 1 + 2 : Nat) : Int) + -3).toNat =
                        s.pos + k := by omega
                    refine ⟨?_, ?_⟩
                    · simp only [hp1]
                      rw [hdropk, hbE, hxI]
                      rfl
                    · right
                      simp only [hp1]
                      have hp2 : s.pos + k + 2 = (s.pos + k + 1) + 1 := rfl
                      rw [hp2, ← List.drop_drop, hd1]
                      simpa using hyw
                  · simp_all

theorem ei_validation_fail (d0 : List Nat) (s : StreamType) {b x y : Nat}
    {r : List Nat} (hdw : (s.data.drop s.pos).dropWhile wsb = b :: x :: y :: r)
    (hne : ¬(b = 0x45 ∧ x = 0x49 ∧ wsb y = true)) :
    ei_validation d0 s = .error "EI stream not found" := by
  rw [ei_validation, read_non_whitespace_spec]
  set k := ((s.data.drop s.pos).takeWhile wsb).length with hk
  have hdropk : s.data.drop (s.pos + k) = (s.data.drop s.pos).dropWhile wsb := by
    rw [hk, ← List.drop_drop, drop_takeWhile_length]
  have hd1 : s.data.drop (s.pos + k + 1) = x :: y :: r := by
    rw [show s.pos + k + 1 = (s.pos + k) + 1 from rfl, ← List.drop_drop,
      hdropk, hdw]
    rfl
  rw [hdw]
  simp only [List.take_succ_cons, List.take_zero, List.length_cons,
    List.length_nil, Nat.zero_add, Nat.reduceAdd, StreamType.read, hd1,
    StreamType.seek, List.cons_append, List.nil_append]
  split
  · rename_i e hcond
    split at hcond
    · rename_i hc
      exfalso
      omega
    · simp at hcond
  · rename_i s3 hcond
    rw [if_neg ?hcond2]
    case hcond2 =>
      intro hcond2
      apply hne
      rcases hcond2 with ⟨hc1, hc2⟩
      have hb : b = 0x45 := by
        have := congrArg (fun l => l.headD 0) hc1
        simpa using this
      have hx : x = 0x49 := by
        have := congrArg (fun l => l.tail.headD 0) hc1
        simpa using this
      refine ⟨hb, hx, ?_⟩
      rcases hc2 with hc2 | hc2
      · cases hc2
      · simpa [wsB] using hc2

theorem runEi_ok {r : Option (Except String (List Nat × StreamType))}
    {d : List Nat} {t : StreamType} (h : runEi r = some (.ok (d, t))) :
    ∃ d0 s0, r = some (.ok (d0, s0)) ∧ ei_validation d0 s0 = .ok (d, t) := by
  match r with
  | none => cases h
  | some (.error e) => cases h
  | some (.ok (d0, s0)) =>
      exact ⟨d0, s0, rfl, by simpa [runEi] using h⟩

/-! ### Claim C1: terminator validation postcondition -/

/-- C1 (amended): the four filter-specific extractors (`AHex`, `A85`, `RL`,
`DCT`) share the terminator postcondition: whenever extraction returns
successfully, the final cursor rests on the literal bytes `EI` followed by
end-of-stream or a whitespace byte (when the stream ends immediately after
`EI`, the rewind by three overshoots by one byte, `eiPost`); when the three
bytes at the validation point after whitespace do not spell `EI` plus
whitespace, the validation fails with "EI stream not found".  The legacy
`extract_inline_default` checks `EI` inline instead and consumes past the
terminator: on `x EI Q` it succeeds with the cursor at end of stream, well
past the `EI` at offset 2. -/
theorem C1_terminator_postcondition :
    (∀ s d t, extract_inline_AHex s = some (.ok (d, t)) → eiPost t) ∧
    (∀ s d t, extract_inline_A85 s = some (.ok (d, t)) → eiPost t) ∧
    (∀ s d t, extract_inline_RL s = some (.ok (d, t)) → eiPost t) ∧
    (∀ s d t, extract_inline_DCT s = some (.ok (d, t)) → eiPost t) ∧
    (∀ (d0 : List Nat) (s : StreamType) (b x y : Nat) (r : List Nat),
      (s.data.drop s.pos).dropWhile wsb = b :: x :: y :: r →
      ¬(b = 0x45 ∧ x = 0x49 ∧ wsb y = true) →
      ei_validation d0 s = .error "EI stream not found") ∧
    extract_inline_default (StreamType.mk0 [120, 32, 69, 73, 32, 81]) =
      some (.ok ([120, 32], ⟨[120, 32, 69, 73, 32, 81], 6⟩)) := by
  refine ⟨?_, ?_, ?_, ?_, ?_, rfl⟩
  · intro s d t h
    obtain ⟨d0, s0, -, hei⟩ := runEi_ok h
    exact (ei_validation_ok hei).2.2
  · intro s d t h
    obtain ⟨d0, s0, -, hei⟩ := runEi_ok h
    exact (ei_validation_ok hei).2.2
  · intro s d t h
    obtain ⟨d0, s0, -, hei⟩ := runEi_ok h
    exact (ei_validation_ok hei).2.2
  · intro s d t h
    obtain ⟨d0, s0, -, hei⟩ := runEi_ok h
    exact (ei_validation_ok hei).2.2
  · intro d0 s b x y r hdw hne
    exact ei_validation_fail d0 s hdw hne

/-- Witness for C1: the run-length extractor on `a\x80EI ` succeeds and the
final cursor satisfies the `EI` postcondition. -/
theorem C1_witness : eiPost ⟨[97, 128, 69, 73, 32], 2⟩ :=
  C1_terminator_postcondition.2.2.1 (StreamType.mk0 [97, 128, 69, 73, 32])
    [97, 128] ⟨[97, 128, 69, 73, 32], 2⟩ rfl

/-- C1 counterexample: the legacy extractor on ` EI Q` succeeds, but the
final cursor (position 5, end of stream) is NOT left on the `EI` token (the
`EI` sits at offset 1); the claimed postcondition fails for it. -/
theorem C1_counterexample :
    extract_inline_default (StreamType.mk0 [32, 69, 73, 32, 81]) =
      some (.ok ([32], ⟨[32, 69, 73, 32, 81], 5⟩)) ∧
    ¬ eiPost ⟨[32, 69, 73, 32, 81], 5⟩ := by
  constructor
  · rfl
  · intro h
    rcases h with h | h
    · rcases h with ⟨h1, -⟩
      simp [eiAt] at h1
    · rcases h with ⟨-, h2⟩
      simp at h2

/-! ### Claim C2: truncation behaviour -/

/-- C2: the DCT extractor never raises the truncation error.  On the empty
payload (which contains no `FF D9` terminator) the scan loop reads `b""`
forever: for every fuel bound it fails to terminate, and in particular it
never raises "Unexpected end of stream" (the function contains no such
raise at all). -/
theorem C2_dct_diverges_on_truncation :
    (∀ fuel, dctScan fuel (StreamType.mk0 []) [] false = none) ∧
    extract_inline_DCT (StreamType.mk0 []) = none := by
  have h : ∀ fuel, dctScan fuel (StreamType.mk0 []) [] false = none := by
    intro fuel
    induction fuel with
    | zero => rfl
    | succ f ih => simpa [dctScan, StreamType.read, StreamType.mk0] using ih
  exact ⟨h, by simpa [extract_inline_DCT, runEi, StreamType.mk0] using h 8⟩

/-! ### Claim C3: legacy extractor termination condition -/

/-- C3 counterexample: on `xEI Q` (no whitespace before the `E`) the legacy
extractor DOES terminate at that occurrence, returning `x` — because the
code requires preceding-whitespace OR a following `Q`/`E` token, not AND.
Under the claim it would have rewound, resumed scanning, and died with
"Unexpected end of stream". -/
theorem C3_counterexample :
    extract_inline_default (StreamType.mk0 [120, 69, 73, 32, 81]) =
      some (.ok ([120], ⟨[120, 69, 73, 32, 81], 5⟩)) := rfl

/-- C3 (amended): the legacy extractor terminates at a candidate `E` when it
is followed by `I` plus a whitespace byte and then EITHER the byte before
the `E` is whitespace OR the next non-whitespace byte is a `Q` or `E` token:
` EI Q` terminates (returning the leading space, excluding `EI Q`),
`xEI Q` also terminates at that occurrence (the `Q` satisfies the
alternative), and `xEI x` does not terminate there — it rewinds, resumes
scanning and hits the end of the stream. -/
theorem C3_default_termination_rule :
    extract_inline_default (StreamType.mk0 [32, 69, 73, 32, 81]) =
      some (.ok ([32], ⟨[32, 69, 73, 32, 81], 5⟩)) ∧
    extract_inline_default (StreamType.mk0 [120, 69, 73, 32, 81]) =
      some (.ok ([120], ⟨[120, 69, 73, 32, 81], 5⟩)) ∧
    extract_inline_default (StreamType.mk0 [120, 69, 73, 32, 120]) =
      some (.error "Unexpected end of stream") := by
  exact ⟨rfl, rfl, rfl⟩

/-! ### DCT scan lemmas -/

theorem head?_append_left {a : Nat} {l : List Nat} (h : l.head? = some a)
    (l' : List Nat) : (l ++ l').head? = some a := by
  cases l with
  | nil => cases h
  | cons b t => simpa using h

theorem dctScan_head_ff :
    ∀ (f : Nat) (s : StreamType) (data : List Nat) (nf : Bool) (d : List Nat)
      (t : StreamType), (nf = true → data.head? = some 0xFF) →
      (nf = false → data = []) →
      dctScan f s data nf = some (.ok (d, t)) → d.head? = some 0xFF := by
  intro f
  induction f with
  | zero => intro s data nf d t h1 h2 h; cases h
  | succ f ih =>
    intro s data nf d t h1 h2 h
    simp only [dctScan] at h
    split at h
    · -- c ≠ [255]: plain byte, data extended only when nf is set
      rename_i hcne
      refine ih _ _ _ _ _ ?_ ?_ h
      · intro hnf
        rw [if_pos (Or.inl hnf)]
        exact head?_append_left (h1 hnf) _
      · intro hnf
        rw [if_neg ?side]
        case side =>
          rintro (hl | hr)
          · rw [hnf] at hl; cases hl
          · exact hcne hr
        exact h2 hnf
    · -- c = [255]
      rename_i hcff
      have hcff' : (s.read 1).1 = [0xFF] := by
        by_contra hh
        exact hcff (fun h255 => hh h255)
      have hd1 : (if nf = true ∨ (s.read 1).1 = [0xFF] then data ++ (s.read 1).1
          else data).head? = some 0xFF := by
        rw [if_pos (Or.inr hcff')]
        cases hnf : nf with
        | false => rw [h2 hnf, hcff']; rfl
        | true => exact head?_append_left (h1 hnf) _
      split at h
      · -- c2 = [255]: seek back one and continue
        split at h
        · cases h
        · exact ih _ _ _ _ _ (fun _ => head?_append_left hd1 _) (by simp) h
      · split at h
        · -- c2 = [0]: stuffing
          exact ih _ _ _ _ _ (fun _ => head?_append_left hd1 _) (by simp) h
        · split at h
          · -- c2 = [217]: end of image
            injection h with h'
            injection h' with h''
            injection h'' with hdd htt
            rw [← hdd]
            exact head?_append_left hd1 _
          · split at h
            · -- length-carrying marker segment
              split at h
              · exact ih _ _ _ _ _
                  (fun _ => head?_append_left
                    (head?_append_left (head?_append_left hd1 _) _) _)
                  (by simp) h
              · cases h
            · -- parameterless marker: continue
              exact ih _ _ _ _ _ (fun _ => head?_append_left hd1 _) (by simp) h

theorem dctScan_skip :
    ∀ (junk pre rest : List Nat) (f : Nat), (∀ b ∈ junk, b ≠ 0xFF) →
      dctScan (junk.length + f) ⟨pre ++ junk ++ rest, pre.length⟩ [] false =
        dctScan f ⟨pre ++ junk ++ rest, pre.length + junk.length⟩ [] false := by
  intro junk
  induction junk with
  | nil => intro pre rest f _; simp
  | cons j junk' ih =>
    intro pre rest f hj
    have hstep : (j :: junk').length + f = (junk'.length + f) + 1 := by
      simp [Nat.add_right_comm]
    rw [hstep]
    have hdrop : (pre ++ (j :: junk') ++ rest).drop pre.length =
        j :: (junk' ++ rest) := by
      rw [List.append_assoc, List.drop_left]
      rfl
    have hjne : ¬([j] : List Nat) = [0xFF] := by
      simp
      exact hj j (by simp)
    simp only [dctScan, StreamType.read, hdrop, List.take_succ_cons,
      List.take_zero, List.length_cons, List.length_nil, Nat.zero_add]
    rw [if_pos (show ¬([j] : List Nat) = [0xFF] from hjne)]
    rw [if_neg (show ¬(false = true ∨ ([j] : List Nat) = [0xFF]) from by
      rintro (hh | hh)
      · cases hh
      · exact hjne hh)]
    rw [show pre.length + 1 = (pre ++ [j]).length by simp]
    rw [show pre ++ j :: junk' ++ rest = (pre ++ [j]) ++ junk' ++ rest by simp]
    rw [ih (pre ++ [j]) rest f (fun b hb => hj b (List.mem_cons_of_mem _ hb))]
    rw [show (pre ++ [j]).length + junk'.length = pre.length + (j :: junk').length by
      simp
      omega]
    rfl

/-! ### Claim C10: bytes before the first `FF` are discarded -/

/-- C10: bytes preceding the first `0xFF` never reach the DCT extractor's
output: (1) any successful extraction returns data beginning with `0xFF`;
(2) scanning a prefix of non-`0xFF` bytes consumes it while the data
accumulator is still empty, so extraction on `junk ++ rest` continues
exactly as the scan of `rest` from the cursor after the junk. -/
theorem C10_dct_prefix_discard :
    (∀ s d t, extract_inline_DCT s = some (.ok (d, t)) → d.head? = some 0xFF) ∧
    (∀ junk rest : List Nat, (∀ b ∈ junk, b ≠ 0xFF) →
      extract_inline_DCT (StreamType.mk0 (junk ++ rest)) =
        runEi (dctScan (rest.length + 8) ⟨junk ++ rest, junk.length⟩ [] false)) := by
  constructor
  · intro s d t h
    obtain ⟨d0, s0, hscan, hei⟩ := runEi_ok h
    obtain ⟨hdd, -, -⟩ := ei_validation_ok hei
    rw [hdd]
    exact dctScan_head_ff _ _ _ _ _ _ (by intro hh; cases hh) (fun _ => rfl) hscan
  · intro junk rest hjunk
    have h2 := dctScan_skip junk [] rest (rest.length + 8) hjunk
    simp only [List.nil_append, List.length_nil, Nat.zero_add] at h2
    rw [extract_inline_DCT]
    simp only [StreamType.mk0, List.length_append]
    rw [show junk.length + rest.length + 8 = junk.length + (rest.length + 8) by omega]
    rw [h2]

/-- Witness for C10: on `[0, 7] ++ [FF D9 ...]` the two junk bytes are
discarded and the returned data starts with `0xFF`. -/
theorem C10_witness : ([255, 217] : List Nat).head? = some 0xFF :=
  C10_dct_prefix_discard.1 (StreamType.mk0 [0, 7, 255, 217, 32, 69, 73])
    [255, 217] ⟨[0, 7, 255, 217, 32, 69, 73], 4⟩ rfl

/-! ### Claim C4: length-carrying DCT marker segments -/

theorem ei_validation_eq_success (d0 : List Nat) (s : StreamType) {y : Nat}
    {r : List Nat}
    (hdw : (s.data.drop s.pos).dropWhile wsb = 0x45 :: 0x49 :: y :: r)
    (hy : wsb y = true) :
    ei_validation d0 s =
      .ok (d0, ⟨s.data, s.pos + ((s.data.drop s.pos).takeWhile wsb).length⟩) := by
  rw [ei_validation, read_non_whitespace_spec]
  set k := ((s.data.drop s.pos).takeWhile wsb).length with hk
  have hdropk : s.data.drop (s.pos + k) = (s.data.drop s.pos).dropWhile wsb := by
    rw [hk, ← List.drop_drop, drop_takeWhile_length]
  have hd1 : s.data.drop (s.pos + k + 1) = 0x49 :: y :: r := by
    rw [show s.pos + k + 1 = (s.pos + k) + 1 from rfl, ← List.drop_drop,
      hdropk, hdw]
    rfl
  rw [hdw]
  simp only [List.take_succ_cons, List.take_zero, List.length_cons,
    List.length_nil, Nat.zero_add, Nat.reduceAdd, StreamType.read, hd1,
    StreamType.seek, List.cons_append, List.nil_append]
  rw [if_neg (show ¬((s.pos + k + 1 + 2 : Nat) : Int) + -3 < 0 by omega)]
  simp only [List.drop_succ_cons, List.drop_zero, List.take_succ_cons,
    List.take_zero, wsB, hy, and_true, true_and, or_true, if_pos]
  simp [wsB, hy]
  omega

/-- Facts about the marker-class list used by `extract_inline_DCT`. -/
theorem dctClass_facts : ∀ m ∈ dctClassBytes,
    m ≠ 0xFF ∧ m ≠ 0x00 ∧ m ≠ 0xD9 ∧ pyIn [m] dctClassBytes = true := by
  decide

/-- One scan step across a whole length-carrying marker segment: the
`hi*256+lo - 2` payload bytes are copied verbatim, whatever they contain. -/
theorem dctScan_step_seg (f : Nat) (s : StreamType) (data : List Nat)
    (nf : Bool) (m hi lo : Nat) (payload tail : List Nat)
    (hm : m ∈ dctClassBytes)
    (hdrop : s.data.drop s.pos = 0xFF :: m :: hi :: lo :: (payload ++ tail))
    (hlen : payload.length + 2 = hi * 256 + lo) :
    dctScan (f + 1) s data nf =
      dctScan f ⟨s.data, s.pos + (4 + payload.length)⟩
        (data ++ 0xFF :: m :: hi :: lo :: payload) true := by
  obtain ⟨hm1, hm2, hm3, hm4⟩ := dctClass_facts m hm
  have hd1 : s.data.drop (s.pos + 1) = m :: hi :: lo :: (payload ++ tail) := by
    rw [show s.pos + 1 = s.pos + 1 from rfl, ← List.drop_drop, hdrop]
    rfl
  have hd2 : s.data.drop (s.pos + 1 + 1) = hi :: lo :: (payload ++ tail) := by
    rw [← List.drop_drop, hd1]
    rfl
  have hd3 : s.data.drop (s.pos + 1 + 1 + 2) = payload ++ tail := by
    rw [← List.drop_drop, hd2]
    rfl
  simp only [dctScan, StreamType.read, hdrop, hd1, hd2, hd3,
    List.take_succ_cons, List.take_zero, List.length_cons, List.length_nil,
    Nat.zero_add, Nat.reduceAdd]
  rw [if_neg (show ¬(([0xFF] : List Nat) ≠ [0xFF]) from by simp)]
  rw [if_pos (show nf = true ∨ True from Or.inr trivial)]
  rw [if_neg (show ¬([m] : List Nat) = [0xFF] from by simpa using hm1)]
  rw [if_neg (show ¬([m] : List Nat) = [0x00] from by simpa using hm2)]
  rw [if_neg (show ¬([m] : List Nat) = [0xD9] from by simpa using hm3)]
  rw [if_pos hm4]
  have hsz : ((hi * 256 + lo : Nat) : Int) - 2 = (payload.length : Int) := by
    omega
  rw [StreamType.readI, hsz]
  rw [if_neg (show ¬(payload.length : Int) < 0 by omega)]
  simp only [StreamType.read, Int.toNat_natCast]
  rw [hd3, show List.take payload.length (payload ++ tail) = payload from
    List.take_left' rfl]
  rw [show s.pos + 1 + 1 + 2 + payload.length = s.pos + (4 + payload.length) from
    by omega]
  rw [show data ++ [0xFF] ++ [m] ++ [hi, lo] ++ payload =
    data ++ 0xFF :: m :: hi :: lo :: payload from by simp]

/-- One scan step at the top-level end-of-image marker `FF D9`. -/
theorem dctScan_step_d9 (f : Nat) (s : StreamType) (data : List Nat)
    (nf : Bool) (rest : List Nat)
    (hdrop : s.data.drop s.pos = 0xFF :: 0xD9 :: rest) :
    dctScan (f + 1) s data nf =
      some (.ok (data ++ [0xFF, 0xD9], ⟨s.data, s.pos + 2⟩)) := by
  have hd1 : s.data.drop (s.pos + 1) = 0xD9 :: rest := by
    rw [← List.drop_drop, hdrop]
    rfl
  simp only [dctScan, StreamType.read, hdrop, hd1, List.take_succ_cons,
    List.take_zero, List.length_cons, List.length_nil, Nat.zero_add,
    Nat.reduceAdd]
  rw [if_neg (show ¬(([0xFF] : List Nat) ≠ [0xFF]) from by simp)]
  simp

/-- C4 counterexample: `FF C8` declares a 4-byte segment (the JPEG `JPG`
marker, which carries an explicit big-endian 2-byte length per ITU T.81),
but `0xC8` is missing from the code's marker-class list, so the `FF D9`
inside the declared segment payload terminates extraction early instead of
being copied verbatim. -/
theorem C4_counterexample :
    extract_inline_DCT (StreamType.mk0
        [0xFF, 0xC8, 0x00, 0x04, 0xFF, 0xD9, 0x20, 0x45, 0x49, 0x20,
         0xFF, 0xD9, 0x20, 0x45, 0x49]) =
      some (.ok ([0xFF, 0xC8, 0x00, 0x04, 0xFF, 0xD9],
        ⟨[0xFF, 0xC8, 0x00, 0x04, 0xFF, 0xD9, 0x20, 0x45, 0x49, 0x20,
          0xFF, 0xD9, 0x20, 0x45, 0x49], 7⟩)) ∧
    0xC8 ∉ dctClassBytes := ⟨rfl, by decide⟩

/-- C4 (amended): for every marker `m` in the class list enumerated by the
code (`C0`–`C7`, `C9`–`CF`, `DA`–`DF`, `E0`–`EF`, `FE` — not every
length-carrying marker of the 0xC0–0xFE range: `C8` and `F0`–`FD` are
absent), the declared-length payload (`hi*256+lo − 2` bytes) is copied
verbatim with no marker interpretation: an embedded `FF D9` inside the
payload does not terminate extraction; the first top-level `FF D9` after
the segment does. -/
theorem C4_segment_copied_verbatim (m hi lo : Nat) (payload : List Nat)
    (hm : m ∈ dctClassBytes) (hlen : payload.length + 2 = hi * 256 + lo) :
    extract_inline_DCT (StreamType.mk0
        ([0xFF, m, hi, lo] ++ payload ++ [0xFF, 0xD9, 0x20, 0x45, 0x49, 0x20])) =
      some (.ok ([0xFF, m, hi, lo] ++ payload ++ [0xFF, 0xD9],
        ⟨[0xFF, m, hi, lo] ++ payload ++ [0xFF, 0xD9, 0x20, 0x45, 0x49, 0x20],
         7 + payload.length⟩)) := by
  set l := [0xFF, m, hi, lo] ++ payload ++ [0xFF, 0xD9, 0x20, 0x45, 0x49, 0x20]
    with hl
  have hlenl : l.length = payload.length + 10 := by
    simp [hl]
  rw [extract_inline_DCT]
  simp only [StreamType.mk0]
  rw [show (⟨l, 0⟩ : StreamType).data.length + 8 = (payload.length + 16) + 1 + 1
    from by simp [hlenl]]
  rw [dctScan_step_seg _ _ _ _ m hi lo payload
    [0xFF, 0xD9, 0x20, 0x45, 0x49, 0x20] hm ?hdrop hlen]
  case hdrop =>
    simp [hl]
  rw [show (0 : Nat) + (4 + payload.length) = 4 + payload.length from by omega]
  rw [dctScan_step_d9 _ _ _ _ [0x20, 0x45, 0x49, 0x20] ?hdrop2]
  case hdrop2 =>
    show l.drop (4 + payload.length) = _
    rw [hl]
    exact List.drop_left' (by
      simp only [List.length_append, List.length_cons, List.length_nil]
      try omega)
  simp only [runEi]
  rw [show (4 + payload.length + 2 : Nat) = 6 + payload.length from by omega]
  have hdrop3 : l.drop (6 + payload.length) = [0x20, 0x45, 0x49, 0x20] := by
    rw [hl, show [0xFF, m, hi, lo] ++ payload ++ [0xFF, 0xD9, 0x20, 0x45, 0x49, 0x20] =
      ([0xFF, m, hi, lo] ++ payload ++ [0xFF, 0xD9]) ++ [0x20, 0x45, 0x49, 0x20]
      from by simp]
    exact List.drop_left' (by
      simp only [List.length_append, List.length_cons, List.length_nil]
      try omega)
  have hdw32 : (l.drop (6 + payload.length)).dropWhile wsb =
      [0x45, 0x49, 0x20] := by
    rw [hdrop3]
    rfl
  rw [ei_validation_eq_success _ ⟨l, 6 + payload.length⟩ hdw32 (by decide)]
  have htk : (List.takeWhile wsb (l.drop (6 + payload.length))).length = 1 := by
    rw [hdrop3]
    rfl
  rw [show ((⟨l, 6 + payload.length⟩ : StreamType).data.drop
      (⟨l, 6 + payload.length⟩ : StreamType).pos) = l.drop (6 + payload.length)
    from rfl]
  rw [htk]
  rw [show (6 + payload.length + 1 : Nat) = 7 + payload.length from by omega]
  rw [show ([] ++ 0xFF :: m :: hi :: lo :: payload) ++ [0xFF, 0xD9] =
    [0xFF, m, hi, lo] ++ payload ++ [0xFF, 0xD9] from by simp]

/-- Witness for C4: marker `E0` with declared length 4 whose 2-byte payload
is itself the bytes `FF D9`; extraction copies them and terminates only at
the following top-level `FF D9`. -/
theorem C4_witness :
    extract_inline_DCT (StreamType.mk0
        ([0xFF, 0xE0, 0x00, 0x04] ++ [0xFF, 0xD9] ++
          [0xFF, 0xD9, 0x20, 0x45, 0x49, 0x20])) =
      some (.ok ([0xFF, 0xE0, 0x00, 0x04] ++ [0xFF, 0xD9] ++ [0xFF, 0xD9],
        ⟨[0xFF, 0xE0, 0x00, 0x04] ++ [0xFF, 0xD9] ++
          [0xFF, 0xD9, 0x20, 0x45, 0x49, 0x20], 7 + 2⟩)) := by
  have h := C4_segment_copied_verbatim 0xE0 0x00 0x04 [0xFF, 0xD9]
    (by decide) (by decide)
  simpa using h

/-! ### Claim C5: AHex backup terminator whitespace trimming -/

theorem dropWhile_ws_append (ws : List Nat) (l : List Nat)
    (hws : ∀ b ∈ ws, wsb b = true) :
    (ws ++ 0x45 :: l).dropWhile wsb = 0x45 :: l := by
  induction ws with
  | nil =>
      rw [List.nil_append]
      exact List.dropWhile_cons_of_neg (by decide)
  | cons a t ih =>
      rw [List.cons_append, List.dropWhile_cons_of_pos (hws a (by simp))]
      exact ih (fun b hb => hws b (by simp [hb]))

theorem takeWhile_ws_append (ws : List Nat) (l : List Nat)
    (hws : ∀ b ∈ ws, wsb b = true) :
    (ws ++ 0x45 :: l).takeWhile wsb = ws := by
  induction ws with
  | nil =>
      rw [List.nil_append]
      exact List.takeWhile_cons_of_neg (by decide)
  | cons a t ih =>
      rw [List.cons_append, List.takeWhile_cons_of_pos (hws a (by simp))]
      rw [ih (fun b hb => hws b (by simp [hb]))]

/-- `ei_validation` when exactly the two bytes `EI` remain after whitespace:
success, with the rewind overshooting by one. -/
theorem ei_validation_eq_success2 (d0 : List Nat) (s : StreamType)
    (hdw : (s.data.drop s.pos).dropWhile wsb = [0x45, 0x49])
    (hpos : 1 ≤ s.pos + ((s.data.drop s.pos).takeWhile wsb).length) :
    ei_validation d0 s =
      .ok (d0, ⟨s.data,
        s.pos + ((s.data.drop s.pos).takeWhile wsb).length - 1⟩) := by
  rw [ei_validation, read_non_whitespace_spec]
  set k := ((s.data.drop s.pos).takeWhile wsb).length with hk
  have hdropk : s.data.drop (s.pos + k) = (s.data.drop s.pos).dropWhile wsb := by
    rw [hk, ← List.drop_drop, drop_takeWhile_length]
  have hd1 : s.data.drop (s.pos + k + 1) = [0x49] := by
    rw [show s.pos + k + 1 = (s.pos + k) + 1 from rfl, ← List.drop_drop,
      hdropk, hdw]
    rfl
  rw [hdw]
  simp only [List.take_succ_cons, List.take_zero, List.length_cons,
    List.length_nil, Nat.zero_add, Nat.reduceAdd, StreamType.read, hd1,
    StreamType.seek, List.cons_append, List.nil_append, List.take_nil,
    Nat.add_zero, List.append_nil]
  rw [if_neg (show ¬((s.pos + k + 1 + 1 : Nat) : Int) + -3 < 0 by omega)]
  simp
  omega

/-- The whitespace-trim loop of `extract_inline_AHex`, run backwards over a
whitespace run, stops at the non-whitespace byte `p0` that ends the data
proper, decrementing `loc` once per trimmed byte. -/
theorem wsBackF_run (run : List Nat) :
    ∀ (pre0 : List Nat) (p0 : Nat) (suff : List Nat) (f : Nat),
      wsb p0 = false → (∀ b ∈ run, wsb b = true) → run.length + 1 ≤ f →
      wsBackF f (((pre0 ++ [p0]).length + run.length : Nat) : Int)
          ⟨(pre0 ++ [p0]) ++ run ++ suff, (pre0 ++ [p0]).length + run.length⟩
          ((((pre0 ++ [p0]) ++ run ++ suff).drop
            ((pre0 ++ [p0]).length + run.length - 1)).take 1) =
        .ok ((((pre0 ++ [p0]).length : Nat) : Int),
          ⟨(pre0 ++ [p0]) ++ run ++ suff, (pre0 ++ [p0]).length⟩) := by
  induction run using List.reverseRecOn with
  | nil =>
      intro pre0 p0 suff f hp0 hrun hf
      obtain ⟨f', rfl⟩ : ∃ f', f = f' + 1 := ⟨f - 1, by omega⟩
      simp only [List.length_nil, Nat.add_zero, List.append_nil]
      rw [show (pre0 ++ [p0]) ++ suff = pre0 ++ (p0 :: suff) from by simp]
      rw [show (pre0 ++ [p0]).length - 1 = pre0.length from by simp]
      rw [List.drop_left]
      rw [show (p0 :: suff).take 1 = [p0] from rfl]
      simp only [wsBackF]
      rw [if_neg (by simp [wsB, hp0])]
  | append_singleton run' w ih =>
      intro pre0 p0 suff f hp0 hrun hf
      obtain ⟨f', rfl⟩ : ∃ f', f = f' + 1 := ⟨f - 1, by omega⟩
      have hw : wsb w = true := hrun w (by simp)
      rw [show (pre0 ++ [p0]) ++ (run' ++ [w]) ++ suff =
        (pre0 ++ [p0]) ++ run' ++ (w :: suff) from by simp]
      rw [show (run' ++ [w]).length = run'.length + 1 from by simp]
      have hdropc : ((pre0 ++ [p0]) ++ run' ++ (w :: suff)).drop
          ((pre0 ++ [p0]).length + (run'.length + 1) - 1) = w :: suff := by
        refine List.drop_left' ?_
        simp only [List.length_append, List.length_cons, List.length_nil]
        omega
      rw [hdropc]
      rw [show (w :: suff).take 1 = [w] from rfl]
      simp only [wsBackF]
      rw [if_pos (show wsB [w] = true from by simpa [wsB] using hw)]
      simp only [StreamType.seek]
      rw [if_neg (show ¬(((pre0 ++ [p0]).length + (run'.length + 1) : Nat) : Int) +
        -2 < 0 from by
          simp only [List.length_append, List.length_cons, List.length_nil]
          omega)]
      simp only [StreamType.read]
      have hne : ((pre0 ++ [p0]) ++ run' ++ (w :: suff)).drop
          ((((pre0 ++ [p0]).length + (run'.length + 1) : Nat) : Int) + -2).toNat ≠
            [] := by
        intro hnil
        have hlen := congrArg List.length hnil
        simp only [List.length_drop, List.length_append, List.length_cons,
          List.length_nil] at hlen
        omega
      have hlen2 : (List.take 1 (((pre0 ++ [p0]) ++ run' ++ (w :: suff)).drop
          ((((pre0 ++ [p0]).length + (run'.length + 1) : Nat) : Int) +
            -2).toNat)).length = 1 := by
        cases hx : ((pre0 ++ [p0]) ++ run' ++ (w :: suff)).drop
            ((((pre0 ++ [p0]).length + (run'.length + 1) : Nat) : Int) + -2).toNat with
        | nil => exact absurd hx hne
        | cons a t => rfl
      rw [hlen2]
      rw [show ((((pre0 ++ [p0]).length + (run'.length + 1) : Nat) : Int) +
          -2).toNat = (pre0 ++ [p0]).length + run'.length - 1 from by
        simp only [List.length_append, List.length_cons, List.length_nil]
        omega]
      rw [show (pre0 ++ [p0]).length + run'.length - 1 + 1 =
          (pre0 ++ [p0]).length + run'.length from by
        simp only [List.length_append, List.length_cons, List.length_nil]
        omega]
      rw [show (((pre0 ++ [p0]).length + (run'.length + 1) : Nat) : Int) - 1 =
          (((pre0 ++ [p0]).length + run'.length : Nat) : Int) from by
        simp only [List.length_append, List.length_cons, List.length_nil]
        omega]
      have hf' : run'.length + 1 ≤ f' := by
        simp only [List.length_append, List.length_cons, List.length_nil] at hf
        omega
      exact ih pre0 p0 (w :: suff) f' hp0
        (fun b hb => hrun b (by simp [hb])) hf' 

theorem ahexScan_ei_case (f c0 : Nat) (core' ws post : List Nat)
    (hc0 : wsb c0 = false)
    (hlast : wsb ((c0 :: core').getLastD 0) = false)
    (hws : ∀ b ∈ ws, wsb b = true)
    (hgt : findSub ((c0 :: core') ++ ws ++ [0x45, 0x49] ++ post) [0x3E] = none)
    (hfind : findSub ((c0 :: core') ++ ws ++ [0x45, 0x49] ++ post) [0x45, 0x49] =
      some ((c0 :: core').length + ws.length))
    (hlen : ((c0 :: core') ++ ws ++ [0x45, 0x49] ++ post).length ≤ 8193) :
    ahexScan (f + 1)
        (StreamType.mk0 ((c0 :: core') ++ ws ++ [0x45, 0x49] ++ post)) [] =
      some (.ok (c0 :: core',
        ⟨(c0 :: core') ++ ws ++ [0x45, 0x49] ++ post, (c0 :: core').length⟩)) := by
  have hX8192 : ((core' ++ ws ++ [0x45, 0x49] ++ post) : List Nat).length ≤ 8192 := by
    simp only [List.cons_append, List.length_cons, List.length_append,
      List.length_nil] at hlen ⊢
    omega
  obtain ⟨pre0, p0, hsplit⟩ : ∃ pre0 p0, c0 :: core' = pre0 ++ [p0] :=
    ⟨(c0 :: core').dropLast, (c0 :: core').getLast (by simp),
      (List.dropLast_append_getLast (by simp)).symm⟩
  have hp0 : wsb p0 = false := by
    rw [hsplit] at hlast
    rwa [List.getLastD_concat] at hlast
  rw [show (c0 :: core') ++ ws ++ [0x45, 0x49] ++ post =
    c0 :: (core' ++ ws ++ [0x45, 0x49] ++ post) from by simp] at hgt hfind ⊢
  simp only [ahexScan, StreamType.mk0]
  rw [read_non_whitespace_spec]
  dsimp only
  rw [List.drop_zero]
  rw [List.dropWhile_cons_of_neg (show ¬ wsb c0 = true from by simp [hc0]),
      List.takeWhile_cons_of_neg (show ¬ wsb c0 = true from by simp [hc0])]
  rw [show List.take 1 (c0 :: (core' ++ ws ++ [0x45, 0x49] ++ post)) = [c0]
    from rfl]
  simp only [List.length_cons, List.length_nil, Nat.zero_add, Nat.add_zero]
  simp only [StreamType.read]
  rw [show List.drop 1 (c0 :: (core' ++ ws ++ [0x45, 0x49] ++ post)) =
    core' ++ ws ++ [0x45, 0x49] ++ post from rfl]
  rw [List.take_of_length_le hX8192]
  simp only [List.cons_append, List.nil_append]
  rw [if_neg (show ¬(c0 :: (core' ++ ws ++ [0x45, 0x49] ++ post) = [])
    from by simp)]
  rw [hgt, hfind]
  have hseek : (⟨c0 :: (core' ++ ws ++ [0x45, 0x49] ++ post),
      1 + (core' ++ ws ++ [0x45, 0x49] ++ post).length⟩ : StreamType).seek
      (-((c0 :: (core' ++ ws ++ [0x45, 0x49] ++ post)).length : Int) +
        ((c0 :: core').length + ws.length : Nat) - 1) =
      .ok ⟨c0 :: (core' ++ ws ++ [0x45, 0x49] ++ post),
        (c0 :: core').length + ws.length - 1⟩ := by
    rw [StreamType.seek]
    dsimp only
    split
    · rename_i hlt
      exfalso
      simp only [List.length_cons, List.length_append, List.length_nil] at hlt
      push_cast at hlt
      omega
    · rename_i hge
      congr 1
      simp only [List.length_cons, List.length_append, List.length_nil] at hge ⊢
      push_cast at hge
      simp only [StreamType.mk.injEq]
      refine ⟨trivial, ?_⟩
      omega
  split
  · rename_i e heq
    cases heq
  · split
    · rename_i loc heq
      injection heq with heq
      subst heq
      split
      · rename_i e heq2
        rw [hseek] at heq2
        simp at heq2
      · rename_i s3 heq2
        rw [hseek] at heq2
        injection heq2 with heq2
        subst heq2
        dsimp only
        have hlen1 : (List.take 1 (List.drop ((c0 :: core').length + ws.length - 1)
            (c0 :: (core' ++ ws ++ [0x45, 0x49] ++ post)))).length = 1 := by
          have hko : ¬(List.drop ((c0 :: core').length + ws.length - 1)
              (c0 :: (core' ++ ws ++ [0x45, 0x49] ++ post)) = []) := by
            intro hnil
            have hln := congrArg List.length hnil
            simp only [List.length_drop, List.length_cons, List.length_append,
              List.length_nil] at hln
            omega
          cases hx : List.drop ((c0 :: core').length + ws.length - 1)
              (c0 :: (core' ++ ws ++ [0x45, 0x49] ++ post)) with
          | nil => exact absurd hx hko
          | cons a t => rfl
        rw [hlen1]
        rw [show (c0 :: core').length + ws.length - 1 + 1 =
          (c0 :: core').length + ws.length from by
            have hA : (c0 :: core').length = core'.length + 1 := rfl
            omega]
        have H := wsBackF_run ws pre0 p0 ([0x45, 0x49] ++ post)
          ((c0 :: core').length + ws.length + 2) hp0 hws (by omega)
        rw [show (pre0 ++ [p0]).length = (c0 :: core').length from by
          rw [← hsplit]] at H
        rw [show (pre0 ++ [p0]) ++ ws ++ ([0x45, 0x49] ++ post) =
          c0 :: (core' ++ ws ++ [0x45, 0x49] ++ post) from by
            rw [← hsplit]
            simp] at H
        split
        · rename_i e heq3
          rw [H] at heq3
          simp at heq3
        · rename_i loc1 s5 heq3
          rw [H] at heq3
          injection heq3 with heq3
          injection heq3 with h1 h2
          subst h1
          subst h2
          rw [pyTake]
          rw [if_pos (show (0 : Int) ≤ (((c0 :: core').length : Nat) : Int)
            from by positivity)]
          rw [Int.toNat_natCast]
          rw [show c0 :: (core' ++ ws ++ [0x45, 0x49] ++ post) =
            (c0 :: core') ++ (ws ++ ([0x45, 0x49] ++ post)) from by simp]
          rw [List.take_left]
          rfl
    · rename_i heq
      cases heq

/-- C5: when the scanned chunk holds no `>` but a literal `EI`, the hex
extractor cuts the data just before the `EI` and additionally excludes every
whitespace byte immediately preceding the `EI`: on
`core ++ ws-run ++ "EI" ++ post` (single chunk, first `EI` right after the
whitespace run, core starting and ending in non-whitespace) it returns
exactly `core`. -/
theorem C5_ahex_backup_trims_whitespace (c0 : Nat) (core' ws post : List Nat)
    (hc0 : wsb c0 = false)
    (hlast : wsb ((c0 :: core').getLastD 0) = false)
    (hws : ∀ b ∈ ws, wsb b = true)
    (hgt : findSub ((c0 :: core') ++ ws ++ [0x45, 0x49] ++ post) [0x3E] = none)
    (hfind : findSub ((c0 :: core') ++ ws ++ [0x45, 0x49] ++ post) [0x45, 0x49] =
      some ((c0 :: core').length + ws.length))
    (hlen : ((c0 :: core') ++ ws ++ [0x45, 0x49] ++ post).length ≤ 8193)
    (hpost : post = [] ∨ wsb (post.headD 0) = true) :
    dataPart (extract_inline_AHex
      (StreamType.mk0 ((c0 :: core') ++ ws ++ [0x45, 0x49] ++ post))) =
      some (.ok (c0 :: core')) := by
  rw [extract_inline_AHex]
  rw [show (StreamType.mk0 ((c0 :: core') ++ ws ++ [0x45, 0x49] ++ post)).data.length + 8 =
    (((c0 :: core') ++ ws ++ [0x45, 0x49] ++ post).length + 7) + 1 from rfl]
  rw [ahexScan_ei_case _ c0 core' ws post hc0 hlast hws hgt hfind hlen]
  simp only [runEi]
  cases post with
  | nil =>
      rw [ei_validation_eq_success2 (c0 :: core')
        ⟨(c0 :: core') ++ ws ++ [0x45, 0x49] ++ [], (c0 :: core').length⟩
        ?hdw ?hpos]
      case hdw =>
        show (((c0 :: core') ++ ws ++ [0x45, 0x49] ++ []).drop
          (c0 :: core').length).dropWhile wsb = [0x45, 0x49]
        rw [show (c0 :: core') ++ ws ++ [0x45, 0x49] ++ ([] : List Nat) =
          (c0 :: core') ++ (ws ++ 0x45 :: [0x49]) from by simp]
        rw [List.drop_left]
        exact dropWhile_ws_append ws [0x49] hws
      case hpos =>
        show 1 ≤ (c0 :: core').length + _
        have hA : (c0 :: core').length = core'.length + 1 := rfl
        omega
      rfl
  | cons p1 post' =>
      have hp1 : wsb p1 = true := by
        rcases hpost with hpost | hpost
        · cases hpost
        · simpa using hpost
      rw [ei_validation_eq_success (c0 :: core')
        ⟨(c0 :: core') ++ ws ++ [0x45, 0x49] ++ (p1 :: post'), (c0 :: core').length⟩
        ?hdw hp1]
      case hdw =>
        show (((c0 :: core') ++ ws ++ [0x45, 0x49] ++ (p1 :: post')).drop
          (c0 :: core').length).dropWhile wsb = 0x45 :: 0x49 :: p1 :: post'
        rw [show (c0 :: core') ++ ws ++ [0x45, 0x49] ++ (p1 :: post') =
          (c0 :: core') ++ (ws ++ 0x45 :: (0x49 :: p1 :: post')) from by simp]
        rw [List.drop_left]
        exact dropWhile_ws_append ws (0x49 :: p1 :: post') hws
      rfl

/-- Witness for C5: on `AB EI` the backup `EI` search trims the single
whitespace byte and returns exactly `AB`. -/
theorem C5_witness :
    dataPart (extract_inline_AHex (StreamType.mk0 [65, 66, 32, 69, 73])) =
      some (.ok [65, 66]) :=
  C5_ahex_backup_trims_whitespace 65 [66] [32] [] rfl rfl (by decide)
    (by decide) (by decide) (by decide) (Or.inl rfl)

/-! ### Claim C6: the extractors return the still-encoded bytes -/

/-- C6 counterexample: on the hex-encoded inline image `a1>EI` the extractor
returns the three encoded bytes `a1>` as found in the stream, not the single
decoded byte `0x10`: extraction performs no filter decoding. -/
theorem C6_counterexample :
    dataPart (extract_inline_AHex
      (StreamType.mk0 [0x61, 0x31, 0x3E, 0x45, 0x49])) =
      some (.ok [0x61, 0x31, 0x3E]) ∧
    [0x61, 0x31, 0x3E] ≠ [0x10] := ⟨rfl, by decide⟩

/-- C6 (amended): on success each extractor returns the raw, still-encoded
payload bytes as they appear in the stream (the hex text with its `>`, the
ASCII85 text with its `~>`, the run-length bytes with the `0x80`, the JPEG
bytes through `FF D9`, the legacy scan's bytes before the `EI`); no filter
decoding is applied. -/
theorem C6_extractors_return_encoded_bytes :
    extract_inline_AHex (StreamType.mk0 [0x61, 0x31, 0x3E, 0x45, 0x49]) =
      some (.ok ([0x61, 0x31, 0x3E], ⟨[0x61, 0x31, 0x3E, 0x45, 0x49], 2⟩)) ∧
    extract_inline_A85 (StreamType.mk0 [0x61, 0x62, 0x7E, 0x3E, 0x45, 0x49]) =
      some (.ok ([0x61, 0x62, 0x7E, 0x3E],
        ⟨[0x61, 0x62, 0x7E, 0x3E, 0x45, 0x49], 3⟩)) ∧
    extract_inline_RL (StreamType.mk0 [0x61, 0x62, 0x80, 0x45, 0x49]) =
      some (.ok ([0x61, 0x62, 0x80], ⟨[0x61, 0x62, 0x80, 0x45, 0x49], 2⟩)) ∧
    extract_inline_DCT (StreamType.mk0 [0xFF, 0xD9, 0x20, 0x45, 0x49]) =
      some (.ok ([0xFF, 0xD9], ⟨[0xFF, 0xD9, 0x20, 0x45, 0x49], 2⟩)) ∧
    extract_inline_default (StreamType.mk0 [0x78, 0x20, 0x45, 0x49, 0x20, 0x51]) =
      some (.ok ([0x78, 0x20], ⟨[0x78, 0x20, 0x45, 0x49, 0x20, 0x51], 6⟩)) :=
  ⟨rfl, rfl, rfl, rfl, rfl⟩

/-! ### Claims C7, C8, C9: Destination, NumberObject, FloatObject -/

/-- Value held in a bookmark's numeric slot: missing key, PDF `null`
placeholder (`NullObject`), or a number. -/
inductive Slot where
  | absent : Slot
  | null : Slot
  | num : ℚ → Slot
deriving DecidableEq

/-- Argument resolution of `PdfFileMerger._write_bookmark_on_page`
(src/PyPDF2/merger.py): `if key in bookmark and not isinstance(val,
NullObject): args.append(FloatObject(val)) else: args.append(FloatObject(0))`
— both an absent key and a `NullObject` placeholder resolve to 0. -/
def fitArg : Slot → ℚ
  | .num q => q
  | .null => 0
  | .absent => 0

/-- A bookmark's fit type and numeric slots, as read by
`_write_bookmark_on_page`. -/
structure Bookmark where
  typ : String
  left : Slot
  top : Slot
  bottom : Slot
  right : Slot
  zoom : Slot

/-- An element of the `/D` destination array. -/
inductive BArg where
  | num : ℚ → BArg
  | name : String → BArg
deriving DecidableEq

/-- The destination-array construction of
`PdfFileMerger._write_bookmark_on_page` (src/PyPDF2/merger.py): page id and
fit name followed by the fit-specific numeric arguments. -/
def write_bookmark_args (pageId : ℚ) (b : Bookmark) : List BArg :=
  [BArg.num pageId, BArg.name b.typ] ++
    (if b.typ = "/FitH" ∨ b.typ = "/FitBH" then [BArg.num (fitArg b.top)]
     else if b.typ = "/FitV" ∨ b.typ = "/FitBV" then [BArg.num (fitArg b.left)]
     else if b.typ = "/XYZ" then
       [BArg.num (fitArg b.left), BArg.num (fitArg b.top),
        BArg.num (fitArg b.zoom)]
     else if b.typ = "/FitR" then
       [BArg.num (fitArg b.left), BArg.num (fitArg b.bottom),
        BArg.num (fitArg b.right), BArg.num (fitArg b.top)]
     else [])

/-- Modelled from the spec: the `Destination` constructor lives in
PyPDF2/generic.py, which is not under src/.  §4.5: each fit mode requires a
fixed number of numeric arguments (`/Fit`,`/FitB`: 0; `/FitH`,`/FitBH`,
`/FitV`,`/FitBV`: 1; `/XYZ`: 3; `/FitR`: 4); an unrecognized fit mode is a
read error. -/
def destinationArity (typ : String) : Option Nat :=
  if typ = "/Fit" ∨ typ = "/FitB" then some 0
  else if typ = "/FitH" ∨ typ = "/FitBH" ∨ typ = "/FitV" ∨ typ = "/FitBV" then
    some 1
  else if typ = "/XYZ" then some 3
  else if typ = "/FitR" then some 4
  else none

/-- Modelled from the spec: `Destination` construction — missing optional
numeric fields default to 0 (§4.5, §8). -/
def mkDestination (typ : String) (args : List ℚ) : Except String (List ℚ) :=
  match destinationArity typ with
  | none => .error "read error"
  | some n => .ok (args.take n ++ List.replicate (n - args.length) 0)

/-- C7: `/XYZ` destinations with fewer than 3 numeric args fill the missing
trailing args with 0; an unrecognized fit mode raises a read error; and at
serialization time (`_write_bookmark_on_page`) a `NullObject` in any numeric
slot resolves to 0 in the written `/D` array. -/
theorem C7_destination_defaults :
    (∀ args : List ℚ, args.length < 3 →
      mkDestination "/XYZ" args =
        .ok (args ++ List.replicate (3 - args.length) 0)) ∧
    (∀ typ args, typ ∉ ["/Fit", "/FitB", "/FitH", "/FitBH", "/FitV", "/FitBV",
        "/XYZ", "/FitR"] →
      mkDestination typ args = .error "read error") ∧
    fitArg Slot.null = 0 ∧
    (∀ pid b, b.typ = "/XYZ" →
      write_bookmark_args pid b =
        [BArg.num pid, BArg.name "/XYZ", BArg.num (fitArg b.left),
         BArg.num (fitArg b.top), BArg.num (fitArg b.zoom)]) := by
  refine ⟨?_, ?_, rfl, ?_⟩
  · intro args hlt
    rw [mkDestination, destinationArity]
    rw [if_neg (by rintro (h | h) <;> exact absurd h (by decide))]
    rw [if_neg (by rintro (h | h | h | h) <;> exact absurd h (by decide))]
    rw [if_pos rfl]
    dsimp only
    rw [List.take_of_length_le (by omega)]
  · intro typ args hmem
    rw [mkDestination, destinationArity]
    rw [if_neg (by rintro (h | h) <;> exact hmem (by simp [h]))]
    rw [if_neg (by rintro (h | h | h | h) <;> exact hmem (by simp [h]))]
    rw [if_neg (by intro h; exact hmem (by simp [h]))]
    rw [if_neg (by intro h; exact hmem (by simp [h]))]
  · intro pid b ht
    rw [write_bookmark_args, ht]
    rw [if_neg (by rintro (h | h) <;> exact absurd h (by decide))]
    rw [if_neg (by rintro (h | h) <;> exact absurd h (by decide))]
    rw [if_pos rfl]
    rfl

/-- Witness for C7: `/XYZ` with a single numeric argument gets two zeros
appended. -/
theorem C7_witness :
    mkDestination "/XYZ" [(5 : ℚ)] =
      .ok ([(5 : ℚ)] ++ List.replicate (3 - [(5 : ℚ)].length) 0) :=
  C7_destination_defaults.1 [(5 : ℚ)] (by decide)

/-- Modelled from the spec: `NumberObject` construction (PyPDF2/generic.py,
not under src/) rejects magnitudes of at least 1.5·2^10000 = 3·2^9999 with
an overflow error instead of silently wrapping (§4.1, §6, §8; the test
`test_number_object_exception` exercises exactly this bound). -/
def numberObjectNew (v : ℚ) : Except String ℚ :=
  if 3 * 2 ^ 9999 ≤ |v| then .error "OverflowError" else .ok v

/-- C8: any value of magnitude at least 1.5·2^10000 is rejected with an
overflow error. -/
theorem C8_number_object_overflow (v : ℚ) (h : 3 * 2 ^ 9999 ≤ |v|) :
    numberObjectNew v = .error "OverflowError" := by
  rw [numberObjectNew, if_pos h]

/-- Witness for C8 at exactly the bound. -/
theorem C8_witness :
    numberObjectNew (3 * 2 ^ 9999) = .error "OverflowError" :=
  C8_number_object_overflow (3 * 2 ^ 9999)
    (le_of_eq (abs_of_nonneg (by positivity)).symm)

/-- ASCII digit test for the numeric grammar of §6. -/
def isDigitChar (c : Char) : Bool := 48 ≤ c.toNat && c.toNat ≤ 57

/-- Integer value of a digit run. -/
def digitsVal (cs : List Char) : ℚ :=
  cs.foldl (fun acc c => acc * 10 + ((c.toNat - 48 : Nat) : ℚ)) 0

/-- Fractional value of a digit run after the decimal point. -/
def fracVal (cs : List Char) : ℚ :=
  cs.foldr (fun c acc => (acc + ((c.toNat - 48 : Nat) : ℚ)) / 10) 0

/-- Modelled from the spec: the §6 real-number grammar — optional sign,
digits, optional `.` and digits — deciding whether `FloatObject`
(PyPDF2/generic.py, not under src/) can parse the text. -/
def isNumericText (cs : List Char) : Bool :=
  let t := match cs with
    | c :: r => if c = '+' ∨ c = '-' then r else c :: r
    | [] => []
  let intPart := t.takeWhile isDigitChar
  let rest := t.dropWhile isDigitChar
  !intPart.isEmpty &&
    (rest.isEmpty || ((rest.headD ' ' == '.') && (rest.drop 1).all isDigitChar))

/-- Numeric value of a well-formed §6 real-number token. -/
def numericValue (cs : List Char) : ℚ :=
  let sign : ℚ := match cs with
    | c :: _ => if c = '-' then -1 else 1
    | [] => 1
  let t := match cs with
    | c :: r => if c = '+' ∨ c = '-' then r else c :: r
    | [] => []
  sign * (digitsVal (t.takeWhile isDigitChar) +
    fracVal ((t.dropWhile isDigitChar).drop 1))

/-- Modelled from the spec: `FloatObject` parsing (PyPDF2/generic.py, not
under src/), with the documented leniency — invalid text parses to 0 and
never raises (§4.1: "a real number token with unparsable text yields zero
rather than raising"); the function is total, so no error is possible. -/
def floatObjectParse (cs : List Char) : ℚ :=
  if isNumericText cs then numericValue cs else 0

/-- C9: parsing any non-numeric text yields 0 (and, the function being
total, never raises). -/
theorem C9_float_object_lenient (cs : List Char)
    (h : isNumericText cs = false) : floatObjectParse cs = 0 := by
  rw [floatObjectParse, if_neg (by rw [h]; exact fun hh => by cases hh)]

/-- Witness for C9 on the test's input `abc`. -/
theorem C9_witness : floatObjectParse ['a', 'b', 'c'] = 0 :=
  C9_float_object_lenient ['a', 'b', 'c'] (by decide)
